import Mathlib

/-!
Verification of the news_service article retrieval-and-summarization core.

The Go sources are embedded shallowly:
- `Json` and `parseJson` model the subset of `encoding/json.Unmarshal` into
  `any` that the summary normalizer relies on (objects become key/value lists
  where a later duplicate key wins, mirroring Go map assignment; a JSON text
  must be a single value followed only by whitespace).
- the normalizer and LLM-client outcome classification follow
  `internal/llm/llm.go`.
- the repository (`internal/api/handler.go`, store part) is modelled over an
  explicit storage state `List Article`; SQL rows with `NULL` latitude or
  longitude carry `Option` coordinates.
- the orchestration service follows the `service` package file.
-/

/-- JSON values as produced by `encoding/json.Unmarshal` into `any`.
Numbers keep their raw lexeme: the normalizer only ever asks whether a value
is a string, never inspects a numeric value. -/
inductive Json where
  | null
  | bool (b : Bool)
  | num (raw : String)
  | str (s : String)
  | arr (elems : List Json)
  | obj (fields : List (String × Json))

/-- Lookup in a decoded JSON object. Go builds a `map[string]any` by
assigning fields in textual order, so a later duplicate key overwrites an
earlier one: the fold keeps the last match. -/
def objGet (kvs : List (String × Json)) (k : String) : Option Json :=
  kvs.foldl (fun acc p => if p.1 == k then some p.2 else acc) none

/-- JSON whitespace (RFC 8259, as accepted by Go's decoder). -/
def isJsonWs (c : Char) : Bool :=
  c == ' ' || c == '\t' || c == '\n' || c == '\r'

/-- Drop leading JSON whitespace. -/
def skipWs : List Char → List Char
  | [] => []
  | c :: cs => if isJsonWs c then skipWs cs else c :: cs

/-- Hex digit value, if any. -/
def hexVal (c : Char) : Option Nat :=
  if '0' ≤ c ∧ c ≤ '9' then some (c.toNat - '0'.toNat)
  else if 'a' ≤ c ∧ c ≤ 'f' then some (c.toNat - 'a'.toNat + 10)
  else if 'A' ≤ c ∧ c ≤ 'F' then some (c.toNat - 'A'.toNat + 10)
  else none

/-- Value of four hex digits. -/
def hex4 (a b c d : Char) : Option Nat := do
  let x1 ← hexVal a
  let x2 ← hexVal b
  let x3 ← hexVal c
  let x4 ← hexVal d
  pure (((x1 * 16 + x2) * 16 + x3) * 16 + x4)

/-- Left brace character (avoids a brace inside a character literal). -/
def lbrace : Char := Char.ofNat 123

/-- Right brace character. -/
def rbrace : Char := Char.ofNat 125

/-- Parse the body of a JSON string after the opening quote, following Go's
unquoting: standard escapes, `\uXXXX` with surrogate pairing, lone
surrogates replaced by U+FFFD, and unescaped control characters rejected. -/
def parseStrAux : Nat → List Char → List Char → Option (String × List Char)
  | 0, _, _ => none
  | fuel + 1, acc, cs =>
    match cs with
    | [] => none
    | c :: rest =>
      if c == '"' then some (String.mk acc.reverse, rest)
      else if c == '\\' then
        match rest with
        | [] => none
        | e :: rest2 =>
          if e == '"' then parseStrAux fuel ('"' :: acc) rest2
          else if e == '\\' then parseStrAux fuel ('\\' :: acc) rest2
          else if e == '/' then parseStrAux fuel ('/' :: acc) rest2
          else if e == 'b' then parseStrAux fuel (Char.ofNat 8 :: acc) rest2
          else if e == 'f' then parseStrAux fuel (Char.ofNat 12 :: acc) rest2
          else if e == 'n' then parseStrAux fuel ('\n' :: acc) rest2
          else if e == 'r' then parseStrAux fuel ('\r' :: acc) rest2
          else if e == 't' then parseStrAux fuel ('\t' :: acc) rest2
          else if e == 'u' then
            match rest2 with
            | h1 :: h2 :: h3 :: h4 :: rest3 =>
              match hex4 h1 h2 h3 h4 with
              | none => none
              | some n =>
                if 0xD800 ≤ n ∧ n ≤ 0xDBFF then
                  match rest3 with
                  | '\\' :: 'u' :: g1 :: g2 :: g3 :: g4 :: rest4 =>
                    match hex4 g1 g2 g3 g4 with
                    | some m =>
                      if 0xDC00 ≤ m ∧ m ≤ 0xDFFF then
                        parseStrAux fuel
                          (Char.ofNat (0x10000 + (n - 0xD800) * 0x400 + (m - 0xDC00)) :: acc) rest4
                      else parseStrAux fuel (Char.ofNat 0xFFFD :: acc) rest3
                    | none => parseStrAux fuel (Char.ofNat 0xFFFD :: acc) rest3
                  | _ => parseStrAux fuel (Char.ofNat 0xFFFD :: acc) rest3
                else if 0xDC00 ≤ n ∧ n ≤ 0xDFFF then
                  parseStrAux fuel (Char.ofNat 0xFFFD :: acc) rest3
                else parseStrAux fuel (Char.ofNat n :: acc) rest3
            | _ => none
          else none
      else if c.toNat < 0x20 then none
      else parseStrAux fuel (c :: acc) rest

/-- Split off a maximal run of decimal digits. -/
def takeDigits : List Char → List Char × List Char
  | [] => ([], [])
  | c :: cs =>
    if c.isDigit then
      let (ds, rest) := takeDigits cs
      (c :: ds, rest)
    else ([], c :: cs)

/-- Parse a JSON number lexeme (returned raw), following the grammar Go
enforces: optional minus, integer part without leading zeros, optional
fraction and exponent. -/
def parseNum (cs : List Char) : Option (String × List Char) := do
  let (sign, cs1) :=
    match cs with
    | '-' :: rest => (['-'], rest)
    | _ => (([] : List Char), cs)
  let (ip, cs2) ←
    match cs1 with
    | '0' :: rest => some (['0'], rest)
    | c :: rest =>
      if c.isDigit then
        let (ds, r) := takeDigits rest
        some (c :: ds, r)
      else none
    | [] => none
  let (fp, cs3) ←
    match cs2 with
    | '.' :: rest =>
      match takeDigits rest with
      | ([], _) => none
      | (ds, r) => some ('.' :: ds, r)
    | _ => some (([] : List Char), cs2)
  let (ep, cs4) ←
    match cs3 with
    | c :: rest =>
      if c == 'e' || c == 'E' then
        let (sgn, rest2) :=
          match rest with
          | '+' :: r => (['+'], r)
          | '-' :: r => (['-'], r)
          | _ => (([] : List Char), rest)
        match takeDigits rest2 with
        | ([], _) => none
        | (ds, r) => some (c :: (sgn ++ ds), r)
      else some (([] : List Char), cs3)
    | [] => some (([] : List Char), cs3)
  pure (String.mk (sign ++ ip ++ fp ++ ep), cs4)

mutual

/-- Parse one JSON value. Fuel bounds the nesting recursion; the top-level
entry point supplies enough fuel for any input. -/
def parseValue : Nat → List Char → Option (Json × List Char)
  | 0, _ => none
  | fuel + 1, cs =>
    match skipWs cs with
    | [] => none
    | c :: rest =>
      if c == '"' then
        match parseStrAux (rest.length + 1) [] rest with
        | some (s, r) => some (Json.str s, r)
        | none => none
      else if c == lbrace then
        match skipWs rest with
        | d :: rest2 => if d == rbrace then some (Json.obj [], rest2) else parseFields fuel [] rest
        | [] => none
      else if c == '[' then
        match skipWs rest with
        | d :: rest2 => if d == ']' then some (Json.arr [], rest2) else parseElems fuel [] rest
        | [] => none
      else if c == 't' then
        match rest with
        | 'r' :: 'u' :: 'e' :: r => some (Json.bool true, r)
        | _ => none
      else if c == 'f' then
        match rest with
        | 'a' :: 'l' :: 's' :: 'e' :: r => some (Json.bool false, r)
        | _ => none
      else if c == 'n' then
        match rest with
        | 'u' :: 'l' :: 'l' :: r => some (Json.null, r)
        | _ => none
      else if c == '-' || c.isDigit then
        match parseNum (c :: rest) with
        | some (raw, r) => some (Json.num raw, r)
        | none => none
      else none

/-- Parse the remaining comma-separated elements of a non-empty array. -/
def parseElems : Nat → List Json → List Char → Option (Json × List Char)
  | 0, _, _ => none
  | fuel + 1, acc, cs =>
    match parseValue fuel cs with
    | none => none
    | some (v, rest) =>
      match skipWs rest with
      | ',' :: rest2 => parseElems fuel (v :: acc) rest2
      | ']' :: rest2 => some (Json.arr ((v :: acc).reverse), rest2)
      | _ => none

/-- Parse the remaining key/value fields of a non-empty object. -/
def parseFields : Nat → List (String × Json) → List Char → Option (Json × List Char)
  | 0, _, _ => none
  | fuel + 1, acc, cs =>
    match skipWs cs with
    | [] => none
    | q :: rest =>
      if q == '"' then
        match parseStrAux (rest.length + 1) [] rest with
        | none => none
        | some (k, rest2) =>
          match skipWs rest2 with
          | ':' :: rest3 =>
            match parseValue fuel rest3 with
            | none => none
            | some (v, rest4) =>
              match skipWs rest4 with
              | ',' :: rest5 => parseFields fuel ((k, v) :: acc) rest5
              | e :: rest5 =>
                if e == rbrace then some (Json.obj (((k, v) :: acc).reverse), rest5) else none
              | [] => none
          | _ => none
      else none

end

/-- Decode a whole body as one JSON value, as `json.Unmarshal` requires:
a single value with only whitespace around it, otherwise an error. -/
def parseJson (s : String) : Option Json :=
  match parseValue (s.data.length + 1) s.data with
  | some (j, rest) => if (skipWs rest).isEmpty then some j else none
  | none => none

/-- Character set trimmed by `bytes.TrimSpace` (Go `unicode.IsSpace`,
restricted to the Latin-1 characters that can actually occur here). -/
def isGoSpace (c : Char) : Bool :=
  c == '\t' || c == '\n' || c.toNat == 11 || c.toNat == 12 || c == '\r' || c == ' ' ||
    c.toNat == 0x85 || c.toNat == 0xA0

/-- Go's `bytes.TrimSpace`: drop leading and trailing white space. -/
def trimSpace (s : String) : String :=
  String.mk (((s.data.dropWhile isGoSpace).reverse.dropWhile isGoSpace).reverse)

/-- Shared shape of the first three extraction rules in
`Client.SummarizeArticleText`: a field that is present, is a string, and is
non-empty; an empty or non-string value falls through. -/
def strField (m : List (String × Json)) (key : String) : Option String :=
  match objGet m key with
  | some (Json.str s) => if s == "" then none else some s
  | _ => none

/-- Rule 3 of the normalizer: `choices[0].text`, else `choices[0].message.content`. -/
def ruleChoices (m : List (String × Json)) : Option String :=
  match objGet m "choices" with
  | some (Json.arr (first :: _)) =>
    match first with
    | Json.obj m1 =>
      match strField m1 "text" with
      | some s => some s
      | none =>
        match objGet m1 "message" with
        | some (Json.obj m2) => strField m2 "content"
        | _ => none
    | _ => none
  | _ => none

/-- Contribution of one `results` element: its `response` value if the key is
present (empty when not a string), otherwise its `text` value; non-objects
contribute nothing, mirroring the Go loop's `ok` checks. -/
def resultsPiece (j : Json) : String :=
  match j with
  | Json.obj oo =>
    match objGet oo "response" with
    | some (Json.str s) => s
    | some _ => ""
    | none =>
      match objGet oo "text" with
      | some (Json.str s) => s
      | _ => ""
  | _ => ""

/-- Rule 4 of the normalizer: concatenate the `response`/`text` strings of a
non-empty `results` array; an empty concatenation falls through. -/
def ruleResults (m : List (String × Json)) : Option String :=
  match objGet m "results" with
  | some (Json.arr (x :: xs)) =>
    let buf := String.join ((x :: xs).map resultsPiece)
    if buf == "" then none else some buf
  | _ => none

/-- The shape detection of `Client.SummarizeArticleText` applied to the
decoded body, translated rule by rule from the Go fall-through ifs. -/
def extractSummary (j : Json) : Option String :=
  match j with
  | Json.obj m =>
    match strField m "response" with
    | some s => some s
    | none =>
      match strField m "text" with
      | some s => some s
      | none =>
        match ruleChoices m with
        | some s => some s
        | none => ruleResults m
  | _ => none

/-- The summary normalizer: an unparsable body is returned raw (not trimmed);
a parsed body goes through the shape rules; if no rule fires, the raw body is
returned with surrounding whitespace trimmed. -/
def normalizeBody (body : String) : String :=
  match parseJson body with
  | none => body
  | some j =>
    match extractSummary j with
    | some s => s
    | none => trimSpace body

/-- Outcome of the single `http.Client.Do` call made per summarization:
either a transport failure or a status code with a body. -/
inductive DoResult where
  | failure (msg : String)
  | success (status : Nat) (body : String)

/-- The two error return sites of `Client.SummarizeArticleText`:
`fmt.Errorf("llm request failed: %w", err)` on transport failure and
`fmt.Errorf("llm request failed: status=%d body=%s", ...)` on a non-2xx
status. -/
inductive LLMError where
  | requestFailed (cause : String)
  | upstreamStatus (status : Nat) (body : String)

/-- Result classification of `Client.SummarizeArticleText` from the point the
HTTP call returns: the Go code checks the transport error, then
`resp.StatusCode < 200 || resp.StatusCode >= 300`, then normalizes. -/
def SummarizeArticleText (r : DoResult) : Except LLMError String :=
  match r with
  | DoResult.failure e => Except.error (LLMError.requestFailed e)
  | DoResult.success status body =>
    if status < 200 ∨ status ≥ 300 then Except.error (LLMError.upstreamStatus status body)
    else Except.ok (normalizeBody body)

/-- Modelled from the spec (§4.2 item list): a value satisfies a rule only
when it is a non-empty string. -/
def specNonempty (j : Json) : Option String :=
  match j with
  | Json.str s => if s = "" then none else some s
  | _ => none

/-- Modelled from the spec: rule "a `response` string field". -/
def specRuleResponse (m : List (String × Json)) : Option String :=
  (objGet m "response").bind specNonempty

/-- Modelled from the spec: rule "a `text` string field". -/
def specRuleText (m : List (String × Json)) : Option String :=
  (objGet m "text").bind specNonempty

/-- Modelled from the spec: rule "a `choices` array whose first element has a
`text` string field, else a nested `message.content` string field". -/
def specRuleChoices (m : List (String × Json)) : Option String :=
  (objGet m "choices").bind fun c =>
    match c with
    | Json.arr (first :: _) =>
      match first with
      | Json.obj m1 =>
        ((objGet m1 "text").bind specNonempty).orElse fun _ =>
          (objGet m1 "message").bind fun msg =>
            match msg with
            | Json.obj m2 => (objGet m2 "content").bind specNonempty
            | _ => none
      | _ => none
    | _ => none

/-- Modelled from the spec: rule "a `results` array whose elements each
expose `response` or `text` strings — concatenate all such strings in array
order" (with the source's reading that a present non-string `response` key
shadows `text`); an empty concatenation is treated as absent. -/
def specRuleResults (m : List (String × Json)) : Option String :=
  (objGet m "results").bind fun r =>
    match r with
    | Json.arr elems =>
      if elems.isEmpty then none
      else
        let buf := String.join (elems.map resultsPiece)
        if buf = "" then none else some buf
    | _ => none

/-- Modelled from the spec: the four rules tried in fixed precedence order,
first success wins. -/
def specExtract (j : Json) : Option String :=
  match j with
  | Json.obj m =>
    (specRuleResponse m).orElse fun _ =>
      (specRuleText m).orElse fun _ =>
        (specRuleChoices m).orElse fun _ => specRuleResults m
  | _ => none

/-- ASCII-folded code point, modelling the per-character case folding that
`ILIKE` applies (the texts exercised here are ASCII). -/
def lowerN (c : Char) : Nat :=
  if 65 ≤ c.toNat ∧ c.toNat ≤ 90 then c.toNat + 32 else c.toNat

/-- Case-insensitive character comparison. -/
def charCI (c d : Char) : Bool := lowerN c == lowerN d

/-- SQL `LIKE`/`ILIKE` pattern matching over characters: `%` matches any run,
`_` one character, backslash escapes the next pattern character, anything
else matches itself case-insensitively. (A pattern ending in a lone
backslash is an error in PostgreSQL; it is unreachable here because the
store's patterns always end in `%`.) -/
def likeRun : List Char → List Char → Bool
  | [], s => s.isEmpty
  | c :: p, s =>
    if c = '%' then
      likeRun p s ||
        (match s with
         | [] => false
         | _ :: s2 => likeRun (c :: p) s2)
    else if c = '_' then
      (match s with
       | [] => false
       | _ :: s2 => likeRun p s2)
    else if c = '\\' then
      (match p with
       | e :: p2 =>
         (match s with
          | d :: s2 => charCI e d && likeRun p2 s2
          | [] => false)
       | [] => false)
    else
      (match s with
       | [] => false
       | d :: s2 => charCI c d && likeRun p s2)
termination_by p s => (s.length, p.length)

/-- `ILIKE` on strings. -/
def ilike (pat s : String) : Bool := likeRun pat.data s.data

/-- Case-insensitive prefix test. -/
def prefCI : List Char → List Char → Bool
  | [], _ => true
  | _ :: _, [] => false
  | c :: q, d :: s => charCI c d && prefCI q s

/-- Case-insensitive contiguous-substring test. -/
def subCI : List Char → List Char → Bool
  | q, [] => prefCI q []
  | q, d :: s => prefCI q (d :: s) || subCI q s

/-- Case-insensitive substring test on strings: the reading of
"case-insensitive substring match" in the spec. -/
def substrCI (q s : String) : Bool := subCI q.data s.data

/-- A pattern character that is not a `LIKE` metacharacter. -/
def notMeta (c : Char) : Prop := c ≠ '%' ∧ c ≠ '_' ∧ c ≠ '\\'

/-- Accumulated value of a digit run. -/
def digitsVal (l : List Char) : Nat :=
  l.foldl (fun acc c => acc * 10 + (c.toNat - 48)) 0

/-- Go `strconv.Atoi` on a 64-bit platform: optional sign, at least one
decimal digit, nothing else, and the value must fit in `int64` (an
out-of-range numeral is an error, which `parseLimit` maps to the default). -/
def atoi (s : String) : Option Int :=
  let p :=
    match s.data with
    | '+' :: r => (false, r)
    | '-' :: r => (true, r)
    | r => (false, r)
  if p.2 = [] then none
  else if p.2.all Char.isDigit then
    let n : Int := Int.ofNat (digitsVal p.2)
    let v := if p.1 then -n else n
    if v < -(2 ^ 63) ∨ v > 2 ^ 63 - 1 then none else some v
  else none

/-- The boundary-layer limit parser (`parseLimit` in `handler.go`): parse
failures and non-positive values fall back to 10, values above 200 clamp
to 200. A missing query parameter reaches it as the literal `"10"` (or
`"20"` for nearby) via `DefaultQuery`. -/
def parseLimit (s : String) : Int :=
  match atoi s with
  | none => 10
  | some l => if l ≤ 0 then 10 else if l > 200 then 200 else l

/-- One stored article row. `latitude`/`longitude` are `Option` because the
`articles` columns are nullable and the nearby query filters on
`IS NOT NULL`; `publishedAt` is an abstract UTC instant with `0` as Go's
zero time; `relevance` models the `relevance_score` double, of which only
comparisons are used. The transient `DistanceKm` field of the Go struct is
not a column; geospatial results carry the distance alongside instead. -/
structure Article where
  id : String
  title : String
  description : String
  url : String
  publishedAt : Nat
  source : String
  categories : List String
  relevance : ℚ
  latitude : Option ℝ
  longitude : Option ℝ
  llmSummary : String

/-- Storage-side environment of a service call: the storage engine's
per-row insert verdict (`None` means the INSERT succeeds), the current time,
and the UUID supply indexed by position in the batch. The LLM client is a
separate parameter of the summarization workflow, as `Service.llmClient` is
a separate field of the Go service: it is a function of the (title, content)
pair it is invoked on. -/
structure Ctx where
  dbErr : Article → Option String
  now : Nat
  genId : Nat → String

/-- Defaults `SaveMany` fills in before inserting a row: a generated
identifier when the article has none, and the current time when the
publication timestamp is zero (`categories` is normalized from nil to an
empty list, which a `List` model cannot distinguish). Go applies these by
mutating the caller's struct. -/
def normalizeArticle (ctx : Ctx) (idx : Nat) (a : Article) : Article :=
  { a with
    id := if a.id == "" then ctx.genId idx else a.id,
    publishedAt := if a.publishedAt == 0 then ctx.now else a.publishedAt }

/-- Effect of one upserting INSERT `ON CONFLICT (id) DO UPDATE`: replace the
row with the same identifier, or append a new row. -/
def upsertOne (st : List Article) (a : Article) : List Article :=
  if st.any (fun r => r.id == a.id) then
    st.map (fun r => if r.id == a.id then a else r)
  else st ++ [a]

/-- The `SaveMany` transaction loop: normalize and insert each article in
order inside the transaction, stopping at the first failing insert with
`fmt.Errorf("insert article id=%s: %w", ...)`. On success the accumulated
transaction state is committed. -/
def saveManyGo (ctx : Ctx) (tx : List Article) (idx : Nat) : List Article → Except String (List Article)
  | [] => Except.ok tx
  | a :: rest =>
    match ctx.dbErr (normalizeArticle ctx idx a) with
    | some cause =>
      Except.error ("insert article id=" ++ (normalizeArticle ctx idx a).id ++ ": " ++ cause)
    | none => saveManyGo ctx (upsertOne tx (normalizeArticle ctx idx a)) (idx + 1) rest

/-- `PgStore.SaveMany`: run the batch in one transaction. -/
def SaveMany (ctx : Ctx) (st : List Article) (batch : List Article) : Except String (List Article) :=
  saveManyGo ctx st 0 batch

/-- `SaveMany` together with the visible storage state: a failing batch is
rolled back, leaving storage as it was. -/
def SaveManyRun (ctx : Ctx) (st : List Article) (batch : List Article) :
    Except String Unit × List Article :=
  match SaveMany ctx st batch with
  | Except.ok st' => (Except.ok (), st')
  | Except.error e => (Except.error e, st)

/-- `Service.Ingest`: default the publication timestamp, then delegate to
`SaveMany`. -/
def Ingest (ctx : Ctx) (st : List Article) (articles : List Article) :
    Except String Unit × List Article :=
  let articles' := articles.map fun a =>
    if a.publishedAt == 0 then { a with publishedAt := ctx.now } else a
  SaveManyRun ctx st articles'

/-- `PgStore.GetByIDs`: an empty input returns an empty result; a single
identifier runs `WHERE id = $1 LIMIT 1`. The multi-identifier branch passes
a bare `[]string` to the driver (the `pqArray` helper is the identity
instead of `pq.Array`), which the SQL driver rejects at runtime; the
summarization workflow only ever uses the single-identifier branch. -/
def GetByIDs (st : List Article) : List String → Except String (List Article)
  | [] => Except.ok []
  | [i] =>
    match st.find? (fun r => r.id == i) with
    | some a => Except.ok [a]
    | none => Except.ok []
  | _ :: _ :: _ => Except.error "sql: converting argument: unsupported type []string"

/-- `PgStore.UpdateLLMSummary`: `UPDATE articles SET llm_summary = $1 WHERE
id = $2`. An UPDATE matching zero rows is not an error, so a missing
identifier is a silent no-op. -/
def UpdateLLMSummary (st : List Article) (id summary : String) : Except String (List Article) :=
  Except.ok (st.map fun r => if r.id == id then { r with llmSummary := summary } else r)

/-- Ordering used by `PgStore.Search`: `ORDER BY relevance_score DESC,
published_at DESC`. -/
def searchRel (a b : Article) : Prop :=
  b.relevance < a.relevance ∨ (a.relevance = b.relevance ∧ b.publishedAt ≤ a.publishedAt)

instance : DecidableRel searchRel := fun a b => by
  unfold searchRel; infer_instance

instance : IsTotal Article searchRel where
  total a b := by
    unfold searchRel
    rcases lt_trichotomy a.relevance b.relevance with h | h | h
    · exact Or.inr (Or.inl h)
    · rcases Nat.le_total b.publishedAt a.publishedAt with h2 | h2
      · exact Or.inl (Or.inr ⟨h, h2⟩)
      · exact Or.inr (Or.inr ⟨h.symm, h2⟩)
    · exact Or.inl (Or.inl h)

instance : IsTrans Article searchRel where
  trans a b c hab hbc := by
    unfold searchRel at *
    rcases hab with h1 | ⟨e1, p1⟩
    · rcases hbc with h2 | ⟨e2, _⟩
      · exact Or.inl (h2.trans h1)
      · exact Or.inl (e2 ▸ h1)
    · rcases hbc with h2 | ⟨e2, p2⟩
      · exact Or.inl (e1 ▸ h2)
      · exact Or.inr ⟨e1.trans e2, p2.trans p1⟩

/-- `PgStore.Search`: re-clamp the limit (out-of-range becomes 10), build the
pattern `%q%` by string formatting, keep rows whose title or description
matches it under `ILIKE`, order by relevance then recency, and limit. -/
def Search (st : List Article) (q : String) (limit : Int) : List Article :=
  let lim := if limit ≤ 0 ∨ limit > 100 then (10 : Int) else limit
  let pat := "%" ++ q ++ "%"
  ((st.filter fun a => ilike pat a.title || ilike pat a.description).insertionSort
    searchRel).take lim.toNat

/-- Degrees to radians, as SQL `radians()`. -/
noncomputable def radians (d : ℝ) : ℝ := d * Real.pi / 180

/-- The great-circle distance computed inside the `Nearby` SQL query:
`6371 * acos(cos(radians(lat1))*cos(radians(lat2))*cos(radians(lon2) -
radians(lon1)) + sin(radians(lat1))*sin(radians(lat2)))`, with `(lat1,lon1)`
the query point and `(lat2,lon2)` the row coordinates. -/
noncomputable def gcDistKm (lat1 lon1 lat2 lon2 : ℝ) : ℝ :=
  6371 * Real.arccos (Real.cos (radians lat1) * Real.cos (radians lat2) *
    Real.cos (radians lon2 - radians lon1) +
    Real.sin (radians lat1) * Real.sin (radians lat2))

/-- Ascending-distance ordering of annotated rows. -/
def distLE (p q : Article × ℝ) : Prop := p.2 ≤ q.2

instance : IsTotal (Article × ℝ) distLE where
  total p q := le_total p.2 q.2

instance : IsTrans (Article × ℝ) distLE where
  trans _ _ _ h1 h2 := le_trans h1 h2

/-- `PgStore.Nearby`: clamp the limit (out-of-range becomes 50), keep rows
whose coordinates are both non-NULL, annotate each with the computed
distance, keep those within the radius, order by distance ascending, and
limit. Comparisons on real distances use classical decidability, standing in
for the floating-point comparisons the database evaluates. -/
noncomputable def Nearby (st : List Article) (lat lon radiusKm : ℝ) (limit : Int) :
    List (Article × ℝ) :=
  let lim := if limit ≤ 0 ∨ limit > 200 then (50 : Int) else limit
  let rows := st.filterMap fun a =>
    match a.latitude, a.longitude with
    | some la, some lo => some (a, gcDistKm lat lon la lo)
    | _, _ => none
  let within := rows.filter fun p => @decide (p.2 ≤ radiusKm) (Classical.propDecidable _)
  (@List.insertionSort _ distLE (fun _ _ => Classical.propDecidable _) within).take lim.toNat

/-- `Service.Nearby` delegates to the storage-computed query. -/
noncomputable def ServiceNearby (st : List Article) (lat lon radiusKm : ℝ) (limit : Int) :
    List (Article × ℝ) :=
  Nearby st lat lon radiusKm limit

/-- UTF-8 byte length of a character list. -/
def utf8Len (l : List Char) : Nat := (l.map Char.utf8Size).sum

/-- Go `len()` on a string: its UTF-8 byte count. -/
def goLen (s : String) : Nat := utf8Len s.data

/-- The whole characters of the byte slice `s[:n]`: keep characters while
their bytes fit. (When `n` falls inside a character, Go keeps that
character's leading bytes as invalid UTF-8; the model drops them, and the
claims are evaluated at character boundaries.) -/
def takeBytes : List Char → Nat → List Char
  | [], _ => []
  | c :: cs, n => if c.utf8Size ≤ n then c :: takeBytes cs (n - c.utf8Size) else []

/-- Byte-bounded prefix of a string, as Go `s[:n]`. -/
def goTake (s : String) (n : Nat) : String := String.mk (takeBytes s.data n)

/-- Text selection of `Service.SummarizeArticle`: the description if
non-empty, else the title, truncated by `content[:30000]` when
`len(content)` exceeds 30000 bytes. -/
def chosenText (a : Article) : String :=
  let content := if a.description == "" then a.title else a.description
  if goLen content > 30000 then goTake content 30000 else content

/-- `Service.SummarizeArticle`: fetch by identifier, choose and bound the
text, invoke the LLM client, write the summary back through the `SaveMany`
upsert and then through `UpdateLLMSummary` (on the article identifier as
mutated by `SaveMany`'s normalization), returning the summary. Every failure
aborts the workflow with the state unchanged from the last committed
write. The fetched-article stage is factored into `summarizeFetched`; Go's
`art.LLMSummary = summary` pointer mutation appears as the record update
`{ art with llmSummary := summary }`, and `UpdateLLMSummary` receives the
article identifier as mutated by `SaveMany`'s normalization. -/
def summarizeFetched (llm : String → String → Except String String) (ctx : Ctx)
    (st : List Article) (art : Article) : Except String String × List Article :=
  match llm art.title (chosenText art) with
  | Except.error e => (Except.error ("llm summarize: " ++ e), st)
  | Except.ok summary =>
    match SaveMany ctx st [{ art with llmSummary := summary }] with
    | Except.error e => (Except.error ("save summary: " ++ e), st)
    | Except.ok st1 =>
      match UpdateLLMSummary st1
          (normalizeArticle ctx 0 { art with llmSummary := summary }).id summary with
      | Except.error e => (Except.error ("save summary: " ++ e), st1)
      | Except.ok st2 => (Except.ok summary, st2)

def SummarizeArticle (llm : String → String → Except String String) (ctx : Ctx)
    (st : List Article) (id : String) : Except String String × List Article :=
  match GetByIDs st [id] with
  | Except.error e => (Except.error ("fetch article: " ++ e), st)
  | Except.ok [] => (Except.error "article not found", st)
  | Except.ok (art :: _) => summarizeFetched llm ctx st art

/-- Number of stored rows carrying an identifier. -/
def countId (st : List Article) (id : String) : Nat :=
  (st.filter fun r => r.id == id).length

/-- The persisted summary of the row carrying an identifier, if any. -/
def summaryOf (st : List Article) (id : String) : Option String :=
  (st.find? fun r => r.id == id).map fun r => r.llmSummary

/-- Statement shape for batch hypotheses: every article of a list passes the
storage engine's insert check when normalized at its batch position, the
first position being `k`. -/
def passesFrom (ctx : Ctx) (k : Nat) : List Article → Prop
  | [] => True
  | a :: rest => ctx.dbErr (normalizeArticle ctx k a) = none ∧ passesFrom ctx (k + 1) rest

/-! Theorems. -/

theorem option_orElse_none (f : Unit → Option α) : (none : Option α).orElse f = f () := rfl

theorem option_orElse_some (a : α) (f : Unit → Option α) : (some a).orElse f = some a := rfl

theorem strField_eq (m : List (String × Json)) (k : String) :
    (objGet m k).bind specNonempty = strField m k := by
  unfold strField specNonempty
  cases h : objGet m k with
  | none => rfl
  | some j =>
    cases j with
    | str s => by_cases hs : s = "" <;> simp [hs]
    | null => rfl
    | bool b => rfl
    | num raw => rfl
    | arr xs => rfl
    | obj mm => rfl

theorem specRuleChoices_eq (m : List (String × Json)) : specRuleChoices m = ruleChoices m := by
  unfold specRuleChoices ruleChoices
  cases h : objGet m "choices" with
  | none => rfl
  | some c =>
    cases c with
    | arr elems =>
      cases elems with
      | nil => rfl
      | cons f rest =>
        cases f with
        | obj m1 =>
          simp only [Option.some_bind]
          rw [strField_eq]
          cases h2 : strField m1 "text" with
          | some s => rfl
          | none =>
            simp only [option_orElse_none]
            cases h3 : objGet m1 "message" with
            | none => rfl
            | some msg =>
              cases msg with
              | obj m2 => exact strField_eq m2 "content"
              | null => rfl
              | bool b => rfl
              | num raw => rfl
              | str s => rfl
              | arr xs => rfl
        | null => rfl
        | bool b => rfl
        | num raw => rfl
        | str s => rfl
        | arr xs => rfl
    | null => rfl
    | bool b => rfl
    | num raw => rfl
    | str s => rfl
    | obj mm => rfl

theorem specRuleResults_eq (m : List (String × Json)) : specRuleResults m = ruleResults m := by
  unfold specRuleResults ruleResults
  cases h : objGet m "results" with
  | none => rfl
  | some r =>
    cases r with
    | arr elems =>
      cases elems with
      | nil => rfl
      | cons x xs =>
        simp only [Option.some_bind, List.isEmpty_cons, Bool.false_eq_true, if_false]
        by_cases hb : String.join ((x :: xs).map resultsPiece) = "" <;> simp [hb]
    | null => rfl
    | bool b => rfl
    | num raw => rfl
    | str s => rfl
    | obj mm => rfl

theorem extractSummary_eq_spec (j : Json) : extractSummary j = specExtract j := by
  cases j with
  | obj m =>
    show (match strField m "response" with
      | some s => some s
      | none =>
        match strField m "text" with
        | some s => some s
        | none =>
          match ruleChoices m with
          | some s => some s
          | none => ruleResults m) =
      ((specRuleResponse m).orElse fun _ =>
        (specRuleText m).orElse fun _ =>
          (specRuleChoices m).orElse fun _ => specRuleResults m)
    unfold specRuleResponse specRuleText
    rw [strField_eq, strField_eq, specRuleChoices_eq, specRuleResults_eq]
    cases strField m "response" with
    | some s => rfl
    | none =>
      cases strField m "text" with
      | some s => rfl
      | none =>
        cases ruleChoices m with
        | some s => rfl
        | none => rfl
  | null => rfl
  | bool b => rfl
  | num raw => rfl
  | str s => rfl
  | arr xs => rfl

/-- C2: for a body decoding to a key/value object, the normalizer tries the
four extraction rules of §4.2 in fixed precedence order — `response`, `text`,
`choices[0].text` else `choices[0].message.content`, then the concatenated
`results` strings — where only a non-empty string satisfies a rule and an
empty string falls through; the enumerated examples behave as stated. -/
theorem c2_normalizer_precedence :
    (∀ j : Json, extractSummary j = specExtract j) ∧
    normalizeBody "\x7b\"response\":\"A\"\x7d" = "A" ∧
    normalizeBody "\x7b\"choices\":[\x7b\"text\":\"B\"\x7d]\x7d" = "B" ∧
    normalizeBody "\x7b\"results\":[\x7b\"text\":\"C\"\x7d,\x7b\"response\":\"D\"\x7d]\x7d" = "CD" ∧
    normalizeBody "\x7b\"response\":\"\",\"text\":\"T\"\x7d" = "T" :=
  ⟨extractSummary_eq_spec, by rfl, by rfl, by rfl, by rfl⟩

/-- C8 counterexample: a non-JSON body with surrounding whitespace is
returned exactly as received, not trimmed, contradicting the claim that the
raw fallback trims surrounding whitespace. -/
theorem c8_counterexample :
    parseJson " plain text " = none ∧
    normalizeBody " plain text " = " plain text " ∧
    trimSpace " plain text " = "plain text" ∧
    (" plain text " : String) ≠ "plain text" :=
  ⟨rfl, rfl, rfl, by decide⟩

/-- C8 (amended): a body that does not parse as JSON is returned raw and
unchanged — untrimmed; only the fallback for a body that parses but matches
no extraction rule is trimmed. The claim's `"plain text"` example still
holds because that literal has no surrounding whitespace. -/
theorem c8_unparsed_body_returned_raw (body : String) (h : parseJson body = none) :
    normalizeBody body = body := by
  unfold normalizeBody
  rw [h]

theorem c8_unparsed_body_returned_raw_witness :
    normalizeBody "plain text" = "plain text" :=
  c8_unparsed_body_returned_raw "plain text" rfl

/-- C6: outcomes of one summarization call are classified by the client as
transport failure, non-2xx upstream status (carrying status and body), or a
2xx response whose body is normalized and always returned successfully. -/
theorem c6_client_outcome_classification :
    (∀ e, SummarizeArticleText (DoResult.failure e) =
      Except.error (LLMError.requestFailed e)) ∧
    (∀ status body, status < 200 ∨ 300 ≤ status →
      SummarizeArticleText (DoResult.success status body) =
        Except.error (LLMError.upstreamStatus status body)) ∧
    (∀ status body, 200 ≤ status → status < 300 →
      SummarizeArticleText (DoResult.success status body) =
        Except.ok (normalizeBody body)) := by
  refine ⟨fun e => rfl, fun status body h => ?_, fun status body h1 h2 => ?_⟩
  · show (if status < 200 ∨ status ≥ 300 then
        Except.error (LLMError.upstreamStatus status body)
      else Except.ok (normalizeBody body)) = _
    rw [if_pos h]
  · show (if status < 200 ∨ status ≥ 300 then
        Except.error (LLMError.upstreamStatus status body)
      else Except.ok (normalizeBody body)) = _
    rw [if_neg]
    omega

theorem c6_client_outcome_classification_witness :
    SummarizeArticleText (DoResult.failure "dial tcp: connection refused") =
      Except.error (LLMError.requestFailed "dial tcp: connection refused") ∧
    SummarizeArticleText (DoResult.success 502 "bad gateway") =
      Except.error (LLMError.upstreamStatus 502 "bad gateway") ∧
    SummarizeArticleText (DoResult.success 200 "plain text") =
      Except.ok (normalizeBody "plain text") :=
  ⟨c6_client_outcome_classification.1 _,
   c6_client_outcome_classification.2.1 502 "bad gateway" (by omega),
   c6_client_outcome_classification.2.2 200 "plain text" (by omega) (by omega)⟩

theorem countId_zero_iff (l : List Article) (id : String) :
    countId l id = 0 ↔ ∀ r ∈ l, (r.id == id) = false := by
  unfold countId
  rw [List.length_eq_zero, List.filter_eq_nil_iff]
  simp

theorem map_if_id_eq_self (l : List Article) (id : String) (g : Article → Article)
    (h : ∀ r ∈ l, (r.id == id) = false) :
    (l.map fun r => if r.id == id then g r else r) = l := by
  induction l with
  | nil => rfl
  | cons a t ih =>
    rw [List.map_cons, if_neg, ih fun r hr => h r (List.mem_cons_of_mem a hr)]
    simp [h a (List.mem_cons_self a t)]

theorem find?_none_of_countId (l : List Article) (id : String) (h : countId l id = 0) :
    l.find? (fun r => r.id == id) = none := by
  rw [List.find?_eq_none]
  intro x hx
  simp [(countId_zero_iff l id).mp h x hx]

theorem saveManyGo_first_failure (ctx : Ctx) (bad : Article) (b2 : List Article) (msg : String) :
    ∀ (b1 : List Article) (k : Nat) (tx : List Article), passesFrom ctx k b1 →
      ctx.dbErr (normalizeArticle ctx (k + b1.length) bad) = some msg →
      saveManyGo ctx tx k (b1 ++ bad :: b2) =
        Except.error ("insert article id=" ++ (normalizeArticle ctx (k + b1.length) bad).id ++
          ": " ++ msg) := by
  intro b1
  induction b1 with
  | nil =>
    intro k tx _ hbad
    simp only [List.length_nil, Nat.add_zero] at hbad ⊢
    rw [List.nil_append]
    unfold saveManyGo
    rw [hbad]
  | cons a b1' ih =>
    intro k tx hok hbad
    obtain ⟨hpass, hrest⟩ := hok
    have harith : k + (a :: b1').length = (k + 1) + b1'.length := by
      simp only [List.length_cons]
      omega
    rw [harith] at hbad ⊢
    rw [List.cons_append]
    unfold saveManyGo
    rw [hpass]
    exact ih (k + 1) (upsertOne tx (normalizeArticle ctx k a)) hrest hbad

/-- C3: a batch whose first failing insert occurs at any position makes the
whole `SaveMany` call fail, the transaction is rolled back so storage keeps
its prior contents (articles processed before the failing one included), and
the error carries the offending record's identifier. -/
theorem c3_save_many_batch_atomic (ctx : Ctx) (st : List Article) (b1 : List Article)
    (bad : Article) (b2 : List Article) (msg : String)
    (hok : passesFrom ctx 0 b1)
    (hbad : ctx.dbErr (normalizeArticle ctx b1.length bad) = some msg) :
    SaveManyRun ctx st (b1 ++ bad :: b2) =
      (Except.error ("insert article id=" ++ (normalizeArticle ctx b1.length bad).id ++
        ": " ++ msg), st) := by
  have h0 : (0 : Nat) + b1.length = b1.length := Nat.zero_add _
  have hrun := saveManyGo_first_failure ctx bad b2 msg b1 0 st hok (by rw [h0]; exact hbad)
  rw [h0] at hrun
  unfold SaveManyRun SaveMany
  rw [hrun]

theorem c3_save_many_batch_atomic_witness :
    SaveManyRun
      ⟨fun a => if a.id == "bad-row" then some "violates not-null constraint" else none,
       7, fun _ => "generated-uuid"⟩
      []
      [{ id := "bad-row", title := "t", description := "d", url := "u", publishedAt := 3,
         source := "s", categories := [], relevance := 0, latitude := none,
         longitude := none, llmSummary := "" }] =
      (Except.error "insert article id=bad-row: violates not-null constraint", []) := by
  have h := c3_save_many_batch_atomic
    ⟨fun a => if a.id == "bad-row" then some "violates not-null constraint" else none,
     7, fun _ => "generated-uuid"⟩
    [] []
    { id := "bad-row", title := "t", description := "d", url := "u", publishedAt := 3,
      source := "s", categories := [], relevance := 0, latitude := none,
      longitude := none, llmSummary := "" }
    [] "violates not-null constraint" trivial rfl
  simpa using h

/-- C4: when no stored article carries the identifier, `SummarizeArticle`
fails with the not-found error of the taxonomy (the Go error value
"article not found"), leaves storage untouched, and — the result being
independent of the context — never invokes the LLM client and performs no
write. -/
theorem c4_summarize_not_found (llm : String → String → Except String String) (ctx : Ctx)
    (st : List Article) (id : String)
    (h : ∀ r ∈ st, r.id ≠ id) :
    SummarizeArticle llm ctx st id = (Except.error "article not found", st) := by
  have hf : st.find? (fun r => r.id == id) = none := by
    rw [List.find?_eq_none]
    intro x hx
    simpa using h x hx
  have hg : GetByIDs st [id] = Except.ok [] := by
    show (match st.find? (fun r => r.id == id) with
      | some a => Except.ok [a]
      | none => Except.ok ([] : List Article)) = Except.ok []
    rw [hf]
  unfold SummarizeArticle
  rw [hg]

theorem c4_summarize_not_found_witness :
    SummarizeArticle (fun _ _ => Except.ok "S") ⟨fun _ => none, 0, fun _ => "u"⟩ []
      "nonexistent-id" = (Except.error "article not found", []) :=
  c4_summarize_not_found _ _ [] "nonexistent-id" (by simp)

/-- C10: `UpdateLLMSummary` on an identifier with no matching row succeeds
(an UPDATE affecting zero rows is not an error) and leaves every stored
article unchanged. -/
theorem c10_update_missing_id_silent_noop (st : List Article) (id txt : String)
    (h : ∀ r ∈ st, r.id ≠ id) :
    UpdateLLMSummary st id txt = Except.ok st := by
  unfold UpdateLLMSummary
  congr 1
  exact map_if_id_eq_self st id _ fun r hr => by simp [h r hr]

theorem c10_update_missing_id_silent_noop_witness :
    UpdateLLMSummary
      [{ id := "a", title := "t", description := "d", url := "u", publishedAt := 1,
         source := "s", categories := [], relevance := 0, latitude := none,
         longitude := none, llmSummary := "old" }] "b" "new" =
      Except.ok
        [{ id := "a", title := "t", description := "d", url := "u", publishedAt := 1,
           source := "s", categories := [], relevance := 0, latitude := none,
           longitude := none, llmSummary := "old" }] :=
  c10_update_missing_id_silent_noop _ "b" "new" (by simp)

theorem find?_mid (pre post : List Article) (b : Article) (id : String)
    (hpre : countId pre id = 0) (hb : (b.id == id) = true) :
    (pre ++ b :: post).find? (fun r => r.id == id) = some b := by
  rw [List.find?_append, find?_none_of_countId pre id hpre, Option.none_or]
  exact List.find?_cons_of_pos _ hb

theorem any_mid (pre post : List Article) (b : Article) (id : String)
    (hb : (b.id == id) = true) :
    (pre ++ b :: post).any (fun r => r.id == id) = true := by
  simp [List.any_append, List.any_cons, hb]

theorem map_mid (pre post : List Article) (b : Article) (id : String) (g : Article → Article)
    (hpre : countId pre id = 0) (hpost : countId post id = 0) (hb : (b.id == id) = true) :
    ((pre ++ b :: post).map fun r => if r.id == id then g r else r) = pre ++ g b :: post := by
  rw [List.map_append, List.map_cons, if_pos hb,
    map_if_id_eq_self pre id g ((countId_zero_iff pre id).mp hpre),
    map_if_id_eq_self post id g ((countId_zero_iff post id).mp hpost)]

theorem upsert_mid (pre post : List Article) (b a : Article) (id : String)
    (hpre : countId pre id = 0) (hpost : countId post id = 0)
    (hb : (b.id == id) = true) (ha : a.id = id) :
    upsertOne (pre ++ b :: post) a = pre ++ a :: post := by
  unfold upsertOne
  simp only [ha]
  rw [if_pos (any_mid pre post b id hb)]
  exact map_mid pre post b id (fun _ => a) hpre hpost hb

theorem update_mid (pre post : List Article) (a : Article) (id s : String)
    (hpre : countId pre id = 0) (hpost : countId post id = 0) (ha : (a.id == id) = true) :
    UpdateLLMSummary (pre ++ a :: post) id s =
      Except.ok (pre ++ { a with llmSummary := s } :: post) := by
  unfold UpdateLLMSummary
  congr 1
  exact map_mid pre post a id (fun r => { r with llmSummary := s }) hpre hpost ha

theorem saveMany_single (ctx : Ctx) (st : List Article) (b : Article)
    (h : ctx.dbErr (normalizeArticle ctx 0 b) = none) :
    SaveMany ctx st [b] = Except.ok (upsertOne st (normalizeArticle ctx 0 b)) := by
  unfold SaveMany saveManyGo
  rw [h]
  rfl

theorem countId_mid (pre post : List Article) (a : Article) (id : String)
    (hpre : countId pre id = 0) (hpost : countId post id = 0) (ha : (a.id == id) = true) :
    countId (pre ++ a :: post) id = 1 := by
  unfold countId at *
  rw [List.filter_append, List.filter_cons, if_pos ha, List.length_append]
  simp [hpre, hpost]

theorem summaryOf_mid (pre post : List Article) (a : Article) (id : String)
    (hpre : countId pre id = 0) (ha : (a.id == id) = true) :
    summaryOf (pre ++ a :: post) id = some a.llmSummary := by
  unfold summaryOf
  rw [find?_mid pre post a id hpre ha]
  rfl

theorem setSummary_self (a : Article) (s : String) (h : a.llmSummary = s) :
    { a with llmSummary := s } = a := by
  cases a
  subst h
  rfl

theorem norm_id_eq (ctx : Ctx) (k : Nat) (a : Article) (h : a.id ≠ "") :
    (normalizeArticle ctx k a).id = a.id := by
  unfold normalizeArticle
  simp [beq_eq_false_iff_ne.mpr h]

theorem norm_idem (ctx : Ctx) (k : Nat) (a : Article) (h : a.id ≠ "") :
    normalizeArticle ctx k (normalizeArticle ctx k a) = normalizeArticle ctx k a := by
  obtain ⟨aid, t, d, u, p, src, cat, rel, la, lo, sum⟩ := a
  have hf : (aid == "") = false := beq_eq_false_iff_ne.mpr h
  unfold normalizeArticle
  by_cases hp : p = 0
  · subst hp
    simp [hf, ite_self]
  · have hp' : (p == 0) = false := by simpa using hp
    simp [hf, hp']

theorem summarize_present (llm : String → String → Except String String) (ctx : Ctx)
    (pre post : List Article) (b : Article) (id s : String)
    (hbid : b.id = id) (hne : id ≠ "")
    (hpre : countId pre id = 0) (hpost : countId post id = 0)
    (hllm : llm b.title (chosenText b) = Except.ok s)
    (hdb : ctx.dbErr (normalizeArticle ctx 0 { b with llmSummary := s }) = none) :
    SummarizeArticle llm ctx (pre ++ b :: post) id =
      (Except.ok s, pre ++ normalizeArticle ctx 0 { b with llmSummary := s } :: post) := by
  have hb : (b.id == id) = true := by simp [hbid]
  have hbne : ({ b with llmSummary := s } : Article).id ≠ "" := by
    show b.id ≠ ""
    rw [hbid]
    exact hne
  have ha1id : (normalizeArticle ctx 0 { b with llmSummary := s }).id = id := by
    rw [norm_id_eq ctx 0 _ hbne]
    exact hbid
  have hg : GetByIDs (pre ++ b :: post) [id] = Except.ok [b] := by
    show (match (pre ++ b :: post).find? (fun r => r.id == id) with
      | some a => Except.ok [a]
      | none => Except.ok ([] : List Article)) = _
    rw [find?_mid pre post b id hpre hb]
  unfold SummarizeArticle
  rw [hg]
  show summarizeFetched llm ctx (pre ++ b :: post) b = _
  unfold summarizeFetched
  rw [hllm]
  show (match SaveMany ctx (pre ++ b :: post) [{ b with llmSummary := s }] with
    | Except.error e => (Except.error ("save summary: " ++ e), pre ++ b :: post)
    | Except.ok st1 =>
      match UpdateLLMSummary st1
          (normalizeArticle ctx 0 { b with llmSummary := s }).id s with
      | Except.error e => (Except.error ("save summary: " ++ e), st1)
      | Except.ok st2 => (Except.ok s, st2)) = _
  rw [saveMany_single ctx (pre ++ b :: post) { b with llmSummary := s } hdb,
    upsert_mid pre post b (normalizeArticle ctx 0 { b with llmSummary := s }) id hpre hpost hb
      ha1id]
  show (match UpdateLLMSummary
      (pre ++ normalizeArticle ctx 0 { b with llmSummary := s } :: post)
      (normalizeArticle ctx 0 { b with llmSummary := s }).id s with
    | Except.error e =>
      (Except.error ("save summary: " ++ e),
        pre ++ normalizeArticle ctx 0 { b with llmSummary := s } :: post)
    | Except.ok st2 => (Except.ok s, st2)) = _
  rw [ha1id,
    update_mid pre post (normalizeArticle ctx 0 { b with llmSummary := s }) id s hpre hpost
      (by simp [ha1id]),
    setSummary_self (normalizeArticle ctx 0 { b with llmSummary := s }) s rfl]

/-- C1: for an identifier present in storage (one row, as the primary key
guarantees), two `SummarizeArticle` calls with no intervening ingest both
succeed with the same summary — the client is a function of the unchanged
(title, chosen text) pair — the persisted summary after each call is that
same summary, storage after the second call is exactly storage after the
first, and the row count for the identifier stays at one: both write-backs
target the same identifier. -/
theorem c1_summarize_idempotent (llm : String → String → Except String String) (ctx : Ctx)
    (pre post : List Article) (art : Article)
    (id s : String)
    (hid : art.id = id) (hne : id ≠ "")
    (hpre : countId pre id = 0) (hpost : countId post id = 0)
    (hllm : llm art.title (chosenText art) = Except.ok s)
    (hdb : ctx.dbErr (normalizeArticle ctx 0 { art with llmSummary := s }) = none) :
    (SummarizeArticle llm ctx (pre ++ art :: post) id).1 = Except.ok s ∧
    (SummarizeArticle llm ctx (SummarizeArticle llm ctx (pre ++ art :: post) id).2 id).1 =
      Except.ok s ∧
    (SummarizeArticle llm ctx (SummarizeArticle llm ctx (pre ++ art :: post) id).2 id).2 =
      (SummarizeArticle llm ctx (pre ++ art :: post) id).2 ∧
    summaryOf (SummarizeArticle llm ctx (pre ++ art :: post) id).2 id = some s ∧
    summaryOf (SummarizeArticle llm ctx (SummarizeArticle llm ctx (pre ++ art :: post) id).2 id).2 id =
      some s ∧
    countId (SummarizeArticle llm ctx (pre ++ art :: post) id).2 id = 1 ∧
    countId (SummarizeArticle llm ctx (SummarizeArticle llm ctx (pre ++ art :: post) id).2 id).2 id =
      1 := by
  have hXne : ({ art with llmSummary := s } : Article).id ≠ "" := by
    show art.id ≠ ""
    rw [hid]
    exact hne
  have ha1id : (normalizeArticle ctx 0 { art with llmSummary := s }).id = id := by
    rw [norm_id_eq ctx 0 _ hXne]
    exact hid
  have h1 : SummarizeArticle llm ctx (pre ++ art :: post) id =
      (Except.ok s, pre ++ normalizeArticle ctx 0 { art with llmSummary := s } :: post) :=
    summarize_present llm ctx pre post art id s hid hne hpre hpost hllm hdb
  have hset : ({ normalizeArticle ctx 0 { art with llmSummary := s } with
      llmSummary := s } : Article) = normalizeArticle ctx 0 { art with llmSummary := s } :=
    setSummary_self _ s rfl
  have hllm2 : llm (normalizeArticle ctx 0 { art with llmSummary := s }).title
      (chosenText (normalizeArticle ctx 0 { art with llmSummary := s })) = Except.ok s := hllm
  have hdb2 : ctx.dbErr (normalizeArticle ctx 0
      { normalizeArticle ctx 0 { art with llmSummary := s } with llmSummary := s }) = none := by
    rw [hset, norm_idem ctx 0 _ hXne]
    exact hdb
  have h2 := summarize_present llm ctx pre post
    (normalizeArticle ctx 0 { art with llmSummary := s }) id s ha1id hne hpre hpost hllm2 hdb2
  rw [hset, norm_idem ctx 0 _ hXne] at h2
  have hb1 : ((normalizeArticle ctx 0 { art with llmSummary := s }).id == id) = true := by
    simp [ha1id]
  refine ⟨?_, ?_, ?_, ?_, ?_, ?_, ?_⟩
  · rw [h1]
  · rw [h1, h2]
  · rw [h1, h2]
  · rw [h1]
    exact summaryOf_mid pre post _ id hpre hb1
  · rw [h1, h2]
    exact summaryOf_mid pre post _ id hpre hb1
  · rw [h1]
    exact countId_mid pre post _ id hpre hpost hb1
  · rw [h1, h2]
    exact countId_mid pre post _ id hpre hpost hb1

theorem c1_summarize_idempotent_witness :
    (SummarizeArticle (fun _ _ => Except.ok "Concise summary.")
      ⟨fun _ => none, 5, fun _ => "gen-uuid"⟩
      [{ id := "article-1", title := "T", description := "D", url := "u", publishedAt := 3,
         source := "s", categories := [], relevance := 0, latitude := none,
         longitude := none, llmSummary := "" }] "article-1").1 =
      Except.ok "Concise summary." ∧
    countId (SummarizeArticle (fun _ _ => Except.ok "Concise summary.")
      ⟨fun _ => none, 5, fun _ => "gen-uuid"⟩
      [{ id := "article-1", title := "T", description := "D", url := "u", publishedAt := 3,
         source := "s", categories := [], relevance := 0, latitude := none,
         longitude := none, llmSummary := "" }] "article-1").2 "article-1" = 1 := by
  have h := c1_summarize_idempotent (fun _ _ => Except.ok "Concise summary.")
    ⟨fun _ => none, 5, fun _ => "gen-uuid"⟩
    [] []
    { id := "article-1", title := "T", description := "D", url := "u", publishedAt := 3,
      source := "s", categories := [], relevance := 0, latitude := none,
      longitude := none, llmSummary := "" }
    "article-1" "Concise summary." rfl (by decide) rfl rfl rfl rfl
  exact ⟨h.1, h.2.2.2.2.2.1⟩

theorem utf8Len_nil : utf8Len [] = 0 := rfl

theorem utf8Len_cons (c : Char) (l : List Char) :
    utf8Len (c :: l) = c.utf8Size + utf8Len l := by
  unfold utf8Len
  simp [List.map_cons, List.sum_cons]

theorem utf8Len_replicate (c : Char) : ∀ n, utf8Len (List.replicate n c) = n * c.utf8Size := by
  intro n
  induction n with
  | zero => simp [utf8Len]
  | succ n ih =>
    rw [List.replicate_succ, utf8Len_cons, ih]
    ring

theorem utf8Len_takeBytes_le : ∀ (l : List Char) (n : Nat), utf8Len (takeBytes l n) ≤ n := by
  intro l
  induction l with
  | nil => intro n; simp [takeBytes, utf8Len_nil]
  | cons c cs ih =>
    intro n
    unfold takeBytes
    by_cases h : c.utf8Size ≤ n
    · rw [if_pos h, utf8Len_cons]
      have := ih (n - c.utf8Size)
      omega
    · rw [if_neg h]
      simp [utf8Len_nil]

theorem takeBytes_of_le : ∀ (l : List Char) (n : Nat), utf8Len l ≤ n → takeBytes l n = l := by
  intro l
  induction l with
  | nil => intro n _; rfl
  | cons c cs ih =>
    intro n h
    rw [utf8Len_cons] at h
    unfold takeBytes
    have hc : c.utf8Size ≤ n := by omega
    rw [if_pos hc, ih (n - c.utf8Size) (by omega)]

theorem takeBytes_prefix_max : ∀ (l : List Char) (n : Nat),
    ∃ rest, l = takeBytes l n ++ rest ∧
      (rest = [] ∨ ∃ c cs, rest = c :: cs ∧ n < utf8Len (takeBytes l n) + c.utf8Size) := by
  intro l
  induction l with
  | nil => intro n; exact ⟨[], rfl, Or.inl rfl⟩
  | cons c cs ih =>
    intro n
    by_cases h : c.utf8Size ≤ n
    · obtain ⟨rest, hsplit, hmax⟩ := ih (n - c.utf8Size)
      refine ⟨rest, ?_, ?_⟩
      · unfold takeBytes
        rw [if_pos h, List.cons_append, ← hsplit]
      · rcases hmax with hnil | ⟨d, ds, hrest, hbound⟩
        · exact Or.inl hnil
        · refine Or.inr ⟨d, ds, hrest, ?_⟩
          unfold takeBytes
          rw [if_pos h, utf8Len_cons]
          omega
    · refine ⟨c :: cs, ?_, Or.inr ⟨c, cs, rfl, ?_⟩⟩
      · unfold takeBytes
        rw [if_neg h, List.nil_append]
      · unfold takeBytes
        rw [if_neg h, utf8Len_nil]
        omega

theorem takeBytes_replicate (c : Char) (h : c.utf8Size = 4) :
    ∀ (n m : Nat), takeBytes (List.replicate n c) (4 * m) = List.replicate (min n m) c := by
  intro n
  induction n with
  | zero => intro m; simp [takeBytes]
  | succ n ih =>
    intro m
    cases m with
    | zero =>
      rw [List.replicate_succ]
      show takeBytes (c :: List.replicate n c) (4 * 0) = _
      unfold takeBytes
      rw [h, if_neg (by omega)]
      simp
    | succ m =>
      rw [List.replicate_succ]
      show takeBytes (c :: List.replicate n c) (4 * (m + 1)) = _
      unfold takeBytes
      rw [h, if_pos (by omega)]
      have h4 : 4 * (m + 1) - 4 = 4 * m := by omega
      rw [h4, ih m, Nat.succ_min_succ, List.replicate_succ]

theorem chosenText_desc_big (a : Article) (hne : (a.description == "") = false)
    (hbig : goLen a.description > 30000) :
    chosenText a = goTake a.description 30000 := by
  unfold chosenText
  rw [hne]
  simp only [Bool.false_eq_true, if_false]
  rw [if_pos hbig]

/-- C7 counterexample: an article whose description is 7501 four-byte
characters (30004 UTF-8 bytes, well under 30,000 characters) loses a
character to the `len(content) > 30000` / `content[:30000]` byte-based
truncation: the chosen text has 7500 characters, although a truncation "to a
maximum of 30,000 characters" would leave all 7501 characters in place. -/
theorem c7_counterexample :
    (String.mk (List.replicate 7501 (Char.ofNat 66376))).data.length = 7501 ∧
    7501 ≤ 30000 ∧
    (chosenText
      { id := "a", title := "T",
        description := String.mk (List.replicate 7501 (Char.ofNat 66376)),
        url := "u", publishedAt := 1, source := "s", categories := [], relevance := 0,
        latitude := none, longitude := none, llmSummary := "" }).data.length = 7500 := by
  have hsz : (Char.ofNat 66376).utf8Size = 4 := by decide
  refine ⟨?_, by omega, ?_⟩
  · show (List.replicate 7501 (Char.ofNat 66376)).length = 7501
    exact List.length_replicate 7501 _
  · have hne : String.mk (List.replicate 7501 (Char.ofNat 66376)) ≠ "" := by
      intro hcontra
      have hlen := congrArg (fun s : String => s.data.length) hcontra
      have h1 : (List.replicate 7501 (Char.ofNat 66376)).length = (0 : Nat) := hlen
      rw [List.length_replicate] at h1
      omega
    have hbeq : (String.mk (List.replicate 7501 (Char.ofNat 66376)) == "") = false :=
      beq_eq_false_iff_ne.mpr hne
    have hlen : goLen (String.mk (List.replicate 7501 (Char.ofNat 66376))) = 30004 := by
      show utf8Len (List.replicate 7501 (Char.ofNat 66376)) = 30004
      rw [utf8Len_replicate, hsz]
    have hbig : goLen (String.mk (List.replicate 7501 (Char.ofNat 66376))) > 30000 := by
      rw [hlen]
      omega
    rw [chosenText_desc_big
      { id := "a", title := "T",
        description := String.mk (List.replicate 7501 (Char.ofNat 66376)),
        url := "u", publishedAt := 1, source := "s", categories := [], relevance := 0,
        latitude := none, longitude := none, llmSummary := "" } hbeq hbig]
    show (takeBytes (List.replicate 7501 (Char.ofNat 66376)) 30000).length = 7500
    have h30000 : (30000 : Nat) = 4 * 7500 := by omega
    rw [h30000, takeBytes_replicate _ hsz 7501 7500, List.length_replicate]
    omega

/-- C7 (amended): the text sent to the LLM client is the description if
non-empty, else the title, truncated to the first 30,000 UTF-8 bytes — Go's
`len`/slicing count bytes, which coincides with 30,000 characters only for
ASCII text. The chosen text fits in 30,000 bytes, is the whole base text
whenever that text fits, is a prefix of the base text that cannot be
extended by one more character within the byte budget, and the workflow
consults the client exactly at the pair (title, chosen text) of the fetched
article. -/
theorem c7_chosen_text_byte_truncation :
    (∀ a : Article,
      (if a.description == "" then a.title else a.description) =
        (if a.description ≠ "" then a.description else a.title) ∧
      goLen (chosenText a) ≤ 30000 ∧
      (goLen (if a.description == "" then a.title else a.description) ≤ 30000 →
        chosenText a = (if a.description == "" then a.title else a.description)) ∧
      (∃ rest, (if a.description == "" then a.title else a.description).data =
          (chosenText a).data ++ rest ∧
        (rest = [] ∨ ∃ c cs, rest = c :: cs ∧
          30000 < goLen (chosenText a) + c.utf8Size))) ∧
    (∀ (f g : String → String → Except String String) (ctx : Ctx) (st : List Article)
      (id : String) (art : Article) (tail : List Article),
      GetByIDs st [id] = Except.ok (art :: tail) →
      f art.title (chosenText art) = g art.title (chosenText art) →
      SummarizeArticle f ctx st id = SummarizeArticle g ctx st id) := by
  constructor
  · intro a
    refine ⟨?_, ?_, ?_, ?_⟩
    · by_cases h : a.description = "" <;> simp [h]
    · unfold chosenText
      by_cases h : goLen (if a.description == "" then a.title else a.description) > 30000
      · rw [if_pos h]
        exact utf8Len_takeBytes_le _ 30000
      · rw [if_neg h]
        omega
    · intro hle
      unfold chosenText
      rw [if_neg (by omega)]
    · unfold chosenText
      by_cases h : goLen (if a.description == "" then a.title else a.description) > 30000
      · rw [if_pos h]
        obtain ⟨rest, hsplit, hmax⟩ :=
          takeBytes_prefix_max (if a.description == "" then a.title else a.description).data
            30000
        exact ⟨rest, hsplit, hmax⟩
      · rw [if_neg h]
        exact ⟨[], by simp, Or.inl rfl⟩
  · intro f g ctx st id art tail hget hfg
    unfold SummarizeArticle
    rw [hget]
    show summarizeFetched f ctx st art = summarizeFetched g ctx st art
    unfold summarizeFetched
    rw [hfg]

theorem c7_chosen_text_byte_truncation_witness :
    chosenText
      { id := "a", title := "T", description := "D", url := "u", publishedAt := 1,
        source := "s", categories := [], relevance := 0, latitude := none,
        longitude := none, llmSummary := "" } = "D" ∧
    SummarizeArticle (fun t c => Except.ok (t ++ c)) ⟨fun _ => none, 0, fun _ => "u"⟩ [] "x" =
      SummarizeArticle (fun t c => Except.ok (c ++ t)) ⟨fun _ => none, 0, fun _ => "u"⟩ []
        "x" := by
  constructor
  · exact ((c7_chosen_text_byte_truncation.1
      { id := "a", title := "T", description := "D", url := "u", publishedAt := 1,
        source := "s", categories := [], relevance := 0, latitude := none,
        longitude := none, llmSummary := "" }).2.2.1 (by decide))
  · rfl

theorem likeRun_nil (s : List Char) : likeRun [] s = s.isEmpty := by
  rw [likeRun.eq_def]

theorem likeRun_cons (c : Char) (p s : List Char) :
    likeRun (c :: p) s =
      (if c = '%' then
        likeRun p s ||
          (match s with
           | [] => false
           | _ :: s2 => likeRun (c :: p) s2)
      else if c = '_' then
        (match s with
         | [] => false
         | _ :: s2 => likeRun p s2)
      else if c = '\\' then
        (match p with
         | e :: p2 =>
           (match s with
            | d :: s2 => charCI e d && likeRun p2 s2
            | [] => false)
         | [] => false)
      else
        (match s with
         | [] => false
         | d :: s2 => charCI c d && likeRun p s2)) := by
  rw [likeRun.eq_def]

theorem likeRun_pct (p s : List Char) :
    likeRun ('%' :: p) s =
      (likeRun p s || match s with | [] => false | _ :: s2 => likeRun ('%' :: p) s2) := by
  rw [likeRun_cons, if_pos rfl]

theorem likeRun_lit (c : Char) (p s : List Char) (h1 : c ≠ '%') (h2 : c ≠ '_')
    (h3 : c ≠ '\\') :
    likeRun (c :: p) s =
      (match s with | [] => false | d :: s2 => charCI c d && likeRun p s2) := by
  rw [likeRun_cons, if_neg h1, if_neg h2, if_neg h3]

theorem likeRun_pct_iff (p : List Char) :
    ∀ s, likeRun ('%' :: p) s = true ↔ ∃ i, likeRun p (s.drop i) = true := by
  intro s
  induction s with
  | nil =>
    rw [likeRun_pct]
    constructor
    · intro h
      refine ⟨0, ?_⟩
      simpa using h
    · rintro ⟨i, hi⟩
      rw [List.drop_nil] at hi
      simp [hi]
  | cons d s' ih =>
    rw [likeRun_pct]
    constructor
    · intro h
      rcases Bool.or_eq_true_iff.mp h with h1 | h2
      · exact ⟨0, h1⟩
      · obtain ⟨i, hi⟩ := ih.mp h2
        exact ⟨i + 1, hi⟩
    · rintro ⟨i, hi⟩
      cases i with
      | zero =>
        apply Bool.or_eq_true_iff.mpr
        exact Or.inl hi
      | succ i =>
        apply Bool.or_eq_true_iff.mpr
        exact Or.inr (ih.mpr ⟨i, hi⟩)

theorem likeRun_pct_nil_pat : ∀ s, likeRun ['%'] s = true := by
  intro s
  induction s with
  | nil =>
    rw [likeRun_pct]
    simp [likeRun_nil]
  | cons d s' ih =>
    rw [likeRun_pct]
    simp [ih]

theorem likeRun_litseq (q : List Char) (hq : ∀ c ∈ q, c ≠ '%' ∧ c ≠ '_' ∧ c ≠ '\\') :
    ∀ s, likeRun (q ++ ['%']) s = prefCI q s := by
  induction q with
  | nil =>
    intro s
    rw [List.nil_append]
    show likeRun ['%'] s = true
    exact likeRun_pct_nil_pat s
  | cons c q' ih =>
    intro s
    have hc := hq c (List.mem_cons_self c q')
    rw [List.cons_append, likeRun_lit c _ s hc.1 hc.2.1 hc.2.2]
    cases s with
    | nil => rfl
    | cons d s' =>
      show (charCI c d && likeRun (q' ++ ['%']) s') = prefCI (c :: q') (d :: s')
      rw [ih (fun x hx => hq x (List.mem_cons_of_mem c hx)) s']
      rfl

theorem subCI_iff (q : List Char) : ∀ s, subCI q s = true ↔ ∃ i, prefCI q (s.drop i) = true := by
  intro s
  induction s with
  | nil =>
    show prefCI q [] = true ↔ _
    constructor
    · intro h
      exact ⟨0, h⟩
    · rintro ⟨i, hi⟩
      rw [List.drop_nil] at hi
      exact hi
  | cons d s' ih =>
    show (prefCI q (d :: s') || subCI q s') = true ↔ _
    constructor
    · intro h
      rcases Bool.or_eq_true_iff.mp h with h1 | h2
      · exact ⟨0, h1⟩
      · obtain ⟨i, hi⟩ := ih.mp h2
        exact ⟨i + 1, hi⟩
    · rintro ⟨i, hi⟩
      cases i with
      | zero => exact Bool.or_eq_true_iff.mpr (Or.inl hi)
      | succ i => exact Bool.or_eq_true_iff.mpr (Or.inr (ih.mpr ⟨i, hi⟩))

theorem like_substring (q : List Char) (hq : ∀ c ∈ q, c ≠ '%' ∧ c ≠ '_' ∧ c ≠ '\\')
    (s : List Char) : likeRun ('%' :: (q ++ ['%'])) s = subCI q s := by
  have hiff : likeRun ('%' :: (q ++ ['%'])) s = true ↔ subCI q s = true := by
    rw [likeRun_pct_iff, subCI_iff]
    constructor
    · rintro ⟨i, hi⟩
      rw [likeRun_litseq q hq] at hi
      exact ⟨i, hi⟩
    · rintro ⟨i, hi⟩
      refine ⟨i, ?_⟩
      rw [likeRun_litseq q hq]
      exact hi
  cases hL : likeRun ('%' :: (q ++ ['%'])) s with
  | true =>
    rw [hL] at hiff
    exact (hiff.mp rfl).symm
  | false =>
    cases hR : subCI q s with
    | false => rfl
    | true =>
      rw [hL, hR] at hiff
      exact (hiff.mpr rfl)

theorem ilike_substrCI (q s : String)
    (hq : ∀ c ∈ q.data, c ≠ '%' ∧ c ≠ '_' ∧ c ≠ '\\') :
    ilike ("%" ++ q ++ "%") s = substrCI q s := by
  unfold ilike substrCI
  have hdata : ("%" ++ q ++ "%").data = '%' :: (q.data ++ ['%']) := by
    simp [String.data_append]
  rw [hdata]
  exact like_substring q.data hq s.data

/-- C9 counterexample: the search query is interpolated into an `ILIKE`
pattern, so a query made of the wildcard `%` matches an article whose title
and description do not contain `%` as a substring — search is not a
substring match for queries containing SQL pattern metacharacters. -/
theorem c9_counterexample :
    (Search
      [{ id := "abc-id", title := "abc", description := "", url := "u", publishedAt := 1,
         source := "s", categories := [], relevance := 0, latitude := none,
         longitude := none, llmSummary := "" }] "%" 5).map (fun a => a.id) = ["abc-id"] ∧
    substrCI "%" "abc" = false ∧
    substrCI "%" "" = false := by
  refine ⟨?_, by decide, by decide⟩
  have h3pct : ∀ s, likeRun ['%', '%', '%'] s = true := by
    intro s
    rw [likeRun_pct, likeRun_pct]
    simp [likeRun_pct_nil_pat]
  have hil1 : ilike "%%%" "abc" = true := h3pct "abc".data
  have hil2 : ilike "%%%" "" = true := h3pct "".data
  unfold Search
  dsimp only
  rw [if_neg (by norm_num)]
  simp [List.filter, hil1, hil2]

/-- C9 (amended): the boundary layer's parsed limit is always in `[1, 200]`,
defaults to 10 for missing, non-numeric (including out-of-int64-range
numerals) and non-positive values, passes in-range values through and clamps
parsed values above 200 to 200. For every limit in `[1, 200]` handed to the
repository, `Search` returns at most that many rows, each a stored row
matching the `ILIKE` pattern `%q%` on title or description — which, for
queries free of the metacharacters `%`, `_` and `\`, is exactly a
case-insensitive substring match — ordered by relevance score descending
then recency descending; every matching row is returned when the limit is
at most 100 (the store's internal re-clamp bound) and at least the number
of matches. -/
theorem c9_parse_limit_and_search :
    (∀ s : String, 1 ≤ parseLimit s ∧ parseLimit s ≤ 200 ∧
      (atoi s = none → parseLimit s = 10) ∧
      (∀ l, atoi s = some l → l ≤ 0 → parseLimit s = 10) ∧
      (∀ l, atoi s = some l → 1 ≤ l → l ≤ 200 → parseLimit s = l) ∧
      (∀ l, atoi s = some l → 200 < l → parseLimit s = 200)) ∧
    atoi "99999999999999999999" = none ∧
    (∀ (st : List Article) (q : String) (lim : Int),
      (∀ c ∈ q.data, c ≠ '%' ∧ c ≠ '_' ∧ c ≠ '\\') →
      1 ≤ lim → lim ≤ 200 →
      (Search st q lim).length ≤ lim.toNat ∧
      (∀ a ∈ Search st q lim, a ∈ st ∧
        (substrCI q a.title = true ∨ substrCI q a.description = true)) ∧
      List.Pairwise searchRel (Search st q lim) ∧
      (lim ≤ 100 →
        (st.filter fun a => substrCI q a.title || substrCI q a.description).length ≤
          lim.toNat →
        ∀ a ∈ st, (substrCI q a.title || substrCI q a.description) = true →
          a ∈ Search st q lim)) := by
  refine ⟨?_, by decide, ?_⟩
  · intro s
    unfold parseLimit
    cases ha : atoi s with
    | none =>
      refine ⟨by norm_num, by norm_num, fun _ => rfl, ?_, ?_, ?_⟩ <;>
        (intro l hl; exact absurd hl (by simp))
    | some l =>
      dsimp only
      refine ⟨?_, ?_, ?_, ?_, ?_, ?_⟩
      · split_ifs <;> omega
      · split_ifs <;> omega
      · intro h
        exact absurd h (by simp)
      · intro l' hl' h0
        have : l = l' := by injection hl'
        subst this
        rw [if_pos h0]
      · intro l' hl' h1 h2
        have : l = l' := by injection hl'
        subst this
        split_ifs <;> omega
      · intro l' hl' h2
        have : l = l' := by injection hl'
        subst this
        split_ifs <;> omega
  · intro st q lim hq h1 h2
    have hmatch : ∀ a : Article,
        (ilike ("%" ++ q ++ "%") a.title || ilike ("%" ++ q ++ "%") a.description) =
          (substrCI q a.title || substrCI q a.description) := by
      intro a
      rw [ilike_substrCI q a.title hq, ilike_substrCI q a.description hq]
    have hfilter : (st.filter fun a =>
          ilike ("%" ++ q ++ "%") a.title || ilike ("%" ++ q ++ "%") a.description) =
        (st.filter fun a => substrCI q a.title || substrCI q a.description) :=
      List.filter_congr (fun a _ => hmatch a)
    have heff : (if lim ≤ 0 ∨ lim > 100 then (10 : Int) else lim) ≤ lim := by
      split_ifs with h
      · rcases h with h | h <;> omega
      · omega
    have heffpos : (0 : Int) ≤ (if lim ≤ 0 ∨ lim > 100 then (10 : Int) else lim) := by
      split_ifs <;> omega
    unfold Search
    dsimp only
    rw [hfilter]
    refine ⟨?_, ?_, ?_, ?_⟩
    · rw [List.length_take]
      have := Int.toNat_le_toNat heff
      omega
    · intro a ha
      have hmem : a ∈ (st.filter fun a =>
          substrCI q a.title || substrCI q a.description).insertionSort searchRel := by
        exact List.mem_of_mem_take ha
      rw [List.mem_insertionSort] at hmem
      have := List.mem_filter.mp hmem
      refine ⟨this.1, ?_⟩
      have hb := this.2
      rcases Bool.or_eq_true_iff.mp hb with hb | hb
      · exact Or.inl hb
      · exact Or.inr hb
    · exact List.Pairwise.sublist (List.take_sublist _ _)
        (List.sorted_insertionSort searchRel _)
    · intro hle hcount a hmem hpred
      have heq : (if lim ≤ 0 ∨ lim > 100 then (10 : Int) else lim) = lim := by
        rw [if_neg]
        push_neg
        omega
      rw [heq]
      have hsorted_len : ((st.filter fun a =>
            substrCI q a.title || substrCI q a.description).insertionSort
          searchRel).length =
          (st.filter fun a => substrCI q a.title || substrCI q a.description).length :=
        (List.perm_insertionSort searchRel _).length_eq
      rw [List.take_of_length_le (by rw [hsorted_len]; exact hcount)]
      rw [List.mem_insertionSort]
      exact List.mem_filter.mpr ⟨hmem, hpred⟩

theorem c9_parse_limit_and_search_witness :
    parseLimit "150" = 150 ∧ (Search [] "a" 5).length ≤ (5 : Int).toNat :=
  ⟨(c9_parse_limit_and_search.1 "150").2.2.2.2.1 150 (by decide) (by norm_num)
      (by norm_num),
   (c9_parse_limit_and_search.2.2 [] "a" 5 (by decide) (by norm_num) (by norm_num)).1⟩

theorem gcDistKm_same_zero : gcDistKm 0 0 0 0 = 0 := by
  unfold gcDistKm radians
  norm_num [Real.cos_zero, Real.sin_zero, Real.arccos_one]

theorem filterMap_replicate_some {α β : Type} (f : α → Option β) (a : α) (b : β)
    (h : f a = some b) : ∀ n, (List.replicate n a).filterMap f = List.replicate n b := by
  intro n
  induction n with
  | zero => rfl
  | succ n ih =>
    rw [List.replicate_succ, List.filterMap_cons, h]
    show b :: (List.replicate n a).filterMap f = _
    rw [ih, List.replicate_succ]

/-- C5 counterexample: 51 stored articles, all with known coordinates at the
query point itself (distance 0, within the radius), and limit 300: the claim
says all 51 qualifying articles are returned (no truncation is needed at
limit 300), but the store replaces limits above 200 by 50 and returns only
50 rows. -/
theorem c5_counterexample :
    (List.replicate 51
      ({ id := "geo", title := "t", description := "d", url := "u", publishedAt := 1,
         source := "s", categories := [], relevance := 0, latitude := some 0,
         longitude := some 0, llmSummary := "" } : Article)).length = 51 ∧
    (∀ a ∈ List.replicate 51
      ({ id := "geo", title := "t", description := "d", url := "u", publishedAt := 1,
         source := "s", categories := [], relevance := 0, latitude := some 0,
         longitude := some 0, llmSummary := "" } : Article),
      a.latitude = some (0 : ℝ) ∧ a.longitude = some (0 : ℝ)) ∧
    gcDistKm 0 0 0 0 ≤ 1 ∧
    ((51 : Int) ≤ 300) ∧
    (Nearby (List.replicate 51
      ({ id := "geo", title := "t", description := "d", url := "u", publishedAt := 1,
         source := "s", categories := [], relevance := 0, latitude := some 0,
         longitude := some 0, llmSummary := "" } : Article)) 0 0 1 300).length = 50 := by
  refine ⟨List.length_replicate 51 _, ?_, ?_, by norm_num, ?_⟩
  · intro a ha
    rw [List.eq_of_mem_replicate ha]
    exact ⟨rfl, rfl⟩
  · rw [gcDistKm_same_zero]
    norm_num
  · unfold Nearby
    dsimp only
    rw [if_pos (by norm_num)]
    rw [filterMap_replicate_some
      (fun a : Article =>
        match a.latitude, a.longitude with
        | some la, some lo => some (a, gcDistKm 0 0 la lo)
        | _, _ => none)
      { id := "geo", title := "t", description := "d", url := "u", publishedAt := 1,
        source := "s", categories := [], relevance := 0, latitude := some 0,
        longitude := some 0, llmSummary := "" }
      (({ id := "geo", title := "t", description := "d", url := "u", publishedAt := 1,
          source := "s", categories := [], relevance := 0, latitude := some 0,
          longitude := some 0, llmSummary := "" } : Article), gcDistKm 0 0 0 0) rfl 51]
    rw [List.filter_eq_self.mpr ?_]
    · rw [List.length_take,
        (@List.perm_insertionSort _ distLE (fun _ _ => Classical.propDecidable _)
          (List.replicate 51 _)).length_eq, List.length_replicate]
      decide
    · intro p hp
      rw [List.eq_of_mem_replicate hp]
      exact decide_eq_true (by rw [gcDistKm_same_zero]; norm_num)

/-- C5 (amended): for limits in `[1, 200]` (the handler's range; the store
replaces limits outside it by 50), `Nearby` returns at most `limit` rows;
every returned row is a stored article with both coordinates present,
annotated with exactly the spherical-law-of-cosines distance
`6371 · acos(cos lat1 · cos lat2 · cos(lon2 − lon1) + sin lat1 · sin lat2)`
from the query point, and within the radius; rows are ordered by distance
ascending; and when all qualifying rows fit in the limit, every stored
article with known coordinates within the radius is returned. Articles
lacking a coordinate are excluded by the `IS NOT NULL` filter, not treated
as (0,0). `Service.Nearby` is the storage query unchanged. -/
theorem c5_nearby_geodesic (st : List Article) (lat lon radiusKm : ℝ)
    (lim : Int) (h1 : 1 ≤ lim) (h2 : lim ≤ 200) :
    ServiceNearby st lat lon radiusKm lim = Nearby st lat lon radiusKm lim ∧
    (Nearby st lat lon radiusKm lim).length ≤ lim.toNat ∧
    (∀ p ∈ Nearby st lat lon radiusKm lim, p.1 ∈ st ∧ p.2 ≤ radiusKm ∧
      ∃ la lo, p.1.latitude = some la ∧ p.1.longitude = some lo ∧
        p.2 = gcDistKm lat lon la lo) ∧
    List.Pairwise distLE (Nearby st lat lon radiusKm lim) ∧
    (((st.filterMap fun a =>
          match a.latitude, a.longitude with
          | some la, some lo => some (a, gcDistKm lat lon la lo)
          | _, _ => none).filter fun p =>
        @decide (p.2 ≤ radiusKm) (Classical.propDecidable _)).length ≤ lim.toNat →
      ∀ a ∈ st, ∀ la lo, a.latitude = some la → a.longitude = some lo →
        gcDistKm lat lon la lo ≤ radiusKm →
        (a, gcDistKm lat lon la lo) ∈ Nearby st lat lon radiusKm lim) := by
  have heffeq : (if lim ≤ 0 ∨ lim > 200 then (50 : Int) else lim) = lim := by
    rw [if_neg]
    omega
  refine ⟨rfl, ?_, ?_, ?_, ?_⟩
  · unfold Nearby
    dsimp only
    rw [heffeq, List.length_take]
    exact Nat.min_le_left _ _
  · intro p hp
    unfold Nearby at hp
    dsimp only at hp
    rw [heffeq] at hp
    have hp1 := List.mem_of_mem_take hp
    rw [(@List.perm_insertionSort _ distLE (fun _ _ => Classical.propDecidable _)
      _).mem_iff] at hp1
    have hp2 := List.mem_filter.mp hp1
    have hle : p.2 ≤ radiusKm := of_decide_eq_true hp2.2
    obtain ⟨a, ha, hfa⟩ := List.mem_filterMap.mp hp2.1
    cases hla : a.latitude with
    | none => rw [hla] at hfa; simp at hfa
    | some la =>
      cases hlo : a.longitude with
      | none => rw [hla, hlo] at hfa; simp at hfa
      | some lo =>
        rw [hla, hlo] at hfa
        have hpa : (a, gcDistKm lat lon la lo) = p := by
          simpa using hfa
        refine ⟨?_, hle, la, lo, ?_, ?_, ?_⟩
        · rw [← hpa]
          exact ha
        · rw [← hpa]
          exact hla
        · rw [← hpa]
          exact hlo
        · rw [← hpa]
  · unfold Nearby
    dsimp only
    rw [heffeq]
    exact List.Pairwise.sublist (List.take_sublist _ _)
      (@List.sorted_insertionSort _ distLE (fun _ _ => Classical.propDecidable _) _ _ _)
  · intro hcount a ha la lo hla hlo hdist
    unfold Nearby
    dsimp only
    rw [heffeq]
    have hperm := @List.perm_insertionSort _ distLE (fun _ _ => Classical.propDecidable _)
      ((st.filterMap fun a =>
          match a.latitude, a.longitude with
          | some la, some lo => some (a, gcDistKm lat lon la lo)
          | _, _ => none).filter fun p =>
        @decide (p.2 ≤ radiusKm) (Classical.propDecidable _))
    rw [List.take_of_length_le (by rw [hperm.length_eq]; exact hcount)]
    rw [hperm.mem_iff]
    apply List.mem_filter.mpr
    constructor
    · exact List.mem_filterMap.mpr ⟨a, ha, by rw [hla, hlo]⟩
    · exact decide_eq_true hdist

theorem c5_nearby_geodesic_witness :
    (Nearby [] 0 0 1 5).length ≤ (5 : Int).toNat :=
  (c5_nearby_geodesic [] 0 0 1 5 (by norm_num) (by norm_num)).2.1
